import Mathlib

/-!
Verification of the multipart decoder in `requests_toolbelt/multipart/decoder.py`.

Shallow embedding: byte strings are `List Nat` (each element a byte value),
text strings are `List Char`.  The Python primitives used by the decoder
(`find`, slicing with negative indices, `split`, `strip`, `lower`,
`dict` insertion) are modelled by the `py*` functions below, and each
function of the source file is translated one-to-one.
-/

section PyPrimitives

variable {α : Type} [DecidableEq α]

/-- `pyStarts c b` is true when the list `c` starts with the list `b`. -/
def pyStarts : List α → List α → Bool
  | _, [] => true
  | [], _ :: _ => false
  | x :: xs, y :: ys => if y = x then pyStarts xs ys else false

/-- Python `c.find(b)`: index of the first occurrence of `b` inside `c`,
and `-1` when there is none. -/
def pyFind : List α → List α → Int
  | [], b => if pyStarts [] b then 0 else -1
  | x :: t, b =>
    if pyStarts (x :: t) b then 0
    else
      let r := pyFind t b
      if r = -1 then -1 else r + 1

/-- Effective index of the Python slice bound `i` for a list of length `n`
(negative bounds count from the end and clamp at `0`). -/
def pyIdx (n : Nat) (i : Int) : Nat :=
  if i < 0 then n - (-i).toNat else min i.toNat n

/-- Python `c[:i]`. -/
def pySliceTo (c : List α) (i : Int) : List α := c.take (pyIdx c.length i)

/-- Python `c[i:]`. -/
def pySliceFrom (c : List α) (i : Int) : List α := c.drop (pyIdx c.length i)

/-- `_split_on_find` from the source: `point = content.find(bound)`, then
`(content[:point], content[point + len(bound):])` (also for `point = -1`,
where the Python slices use the negative index). -/
def split_on_find (content bound : List α) : List α × List α :=
  (pySliceTo content (pyFind content bound),
   pySliceFrom content (pyFind content bound + bound.length))

/-- Fuel-indexed worker for Python `c.split(sep)`; the fuel is always large
enough in `pySplit`, every found occurrence consumes at least one element. -/
def pySplitAux (sep : List α) : Nat → List α → List (List α)
  | 0, c => [c]
  | fuel + 1, c =>
    if sep ≠ [] ∧ 0 ≤ pyFind c sep then
      pySliceTo c (pyFind c sep) ::
        pySplitAux sep fuel (pySliceFrom c (pyFind c sep + sep.length))
    else [c]

/-- Python `c.split(sep)` for a non-empty separator: splits at each leftmost
non-overlapping occurrence, keeping empty pieces. -/
def pySplit (sep c : List α) : List (List α) := pySplitAux sep (c.length + 1) c

end PyPrimitives

section PyText

/-- Python `str.lower` on an ASCII character. -/
def pyLowerChar (c : Char) : Char :=
  if 65 ≤ c.toNat ∧ c.toNat ≤ 90 then Char.ofNat (c.toNat + 32) else c

/-- Python `str.lower` (ASCII range, which covers content-type tokens). -/
def pyLower (s : List Char) : List Char := s.map pyLowerChar

/-- Python `str.strip(chars)`: remove leading and trailing characters
satisfying `P`. -/
def stripChars (P : Char → Bool) (s : List Char) : List Char :=
  ((s.dropWhile P).reverse.dropWhile P).reverse

/-- Python whitespace (space, tab, LF, CR, VT, FF). -/
def isPySpace (c : Char) : Bool :=
  c.toNat == 32 || c.toNat == 9 || c.toNat == 10 || c.toNat == 13 ||
    c.toNat == 11 || c.toNat == 12

/-- Python `str.strip()`. -/
def pyStrip (s : List Char) : List Char := stripChars isPySpace s

end PyText

section DecoderModel

/-- The byte pair CR LF. -/
def crlf : List Nat := [13, 10]

/-- The header/content separator bytes CR LF CR LF. -/
def dcrlf : List Nat := [13, 10, 13, 10]

/-- The bytes of `': '`, the header name/value separator. -/
def colonSp : List Nat := [58, 32]

/-- Python `dict` insertion `d[k] = v` on an association list: overwrite the
entry with the same key in place, otherwise append. -/
def dictInsert (d : List (List Nat × List Nat)) (k v : List Nat) :
    List (List Nat × List Nat) :=
  if d.any (fun kv => kv.1 == k) then
    d.map (fun kv => if kv.1 == k then (k, v) else kv)
  else d ++ [(k, v)]

/-- One iteration of the header loop of `BodyPart.__init__`: a line is split
on the first `': '` into a name/value pair, lines without `': '` are
skipped. -/
def headerStep (d : List (List Nat × List Nat)) (line : List Nat) :
    List (List Nat × List Nat) :=
  if 0 ≤ pyFind line colonSp then
    dictInsert d (split_on_find line colonSp).1 (split_on_find line colonSp).2
  else d

/-- The header loop of `BodyPart.__init__` over a list of header lines. -/
def headersFold (d : List (List Nat × List Nat)) (lines : List (List Nat)) :
    List (List Nat × List Nat) :=
  lines.foldl headerStep d

/-- Header parsing of `BodyPart.__init__`: when the block before the first
CR LF CR LF is non-empty, split it on CR LF and run the header loop. -/
def headersOfBlock (first : List Nat) : List (List Nat × List Nat) :=
  if first = [] then [] else headersFold [] (pySplit crlf first)

/-- The exceptions the decoder can raise: the two typed exception classes of
the source, and the `AttributeError` raised by `_parse_body` when
`_find_boundary` never assigned `self.boundary`. -/
inductive DecoderError where
  | improperBodyPartContent
  | nonMultipartContentType
  | attributeError
deriving DecidableEq

/-- A decoded body part: header entries (the `headers` dict of the source;
the `CaseInsensitiveDict` wrap stores exactly these entries, keyed
case-insensitively), raw content bytes, and the configured encoding name. -/
structure BodyPart where
  headers : List (List Nat × List Nat)
  content : List Nat
  encoding : List Char
deriving DecidableEq

/-- `BodyPart.__init__`: split on the first CR LF CR LF into header block and
content; otherwise tolerate a leading CR LF with no headers; otherwise raise
`ImproperBodyPartContentException`. -/
def BodyPart.init (content : List Nat) (encoding : List Char) :
    Except DecoderError BodyPart :=
  if 0 ≤ pyFind content dcrlf then
    Except.ok
      ⟨headersOfBlock (split_on_find content dcrlf).1,
        (split_on_find content dcrlf).2, encoding⟩
  else if crlf = pySliceTo content 2 then
    Except.ok ⟨[], pySliceFrom content 2, encoding⟩
  else
    Except.error DecoderError.improperBodyPartContent

/-- `BodyPart.__eq__` against another `BodyPart` (the `try` branch:
`other.content` exists): compares raw content only. -/
def BodyPart.eq (p other : BodyPart) : Bool := p.content == other.content

/-- `BodyPart.__eq__` against a raw byte value (the `except AttributeError`
branch): compares the raw content with the value. -/
def BodyPart.eqRaw (p : BodyPart) (other : List Nat) : Bool :=
  p.content == other

/-- `MultipartDecoder._fix_last_part`: if the end marker occurs in the part,
keep only the bytes before its first occurrence. -/
def fix_last_part (part end_marker : List Nat) : List Nat :=
  if 0 ≤ pyFind part end_marker then pySliceTo part (pyFind part end_marker)
  else part

/-- The per-part separator `b'--' + boundary + b'\r\n'` of `_parse_body`. -/
def sepOf (boundary : List Nat) : List Nat := [45, 45] ++ boundary ++ [13, 10]

/-- The end marker `b'\r\n--' + boundary + b'--'` of `_parse_body`. -/
def endMarkerOf (boundary : List Nat) : List Nat :=
  [13, 10, 45, 45] ++ boundary ++ [45, 45]

/-- The full terminal line `b'--' + boundary + b'--\r\n'` sent by an encoder
that closes the multipart body with a CR LF terminated last line. -/
def termLineOf (boundary : List Nat) : List Nat :=
  [45, 45] ++ boundary ++ [45, 45, 13, 10]

/-- Append `s` to the last element of a list of lists (helper for reasoning
about the effect of a payload suffix on the last split fragment). -/
def appLast {α : Type} (l : List (List α)) (s : List α) : List (List α) :=
  match l with
  | [] => [s]
  | [x] => [x ++ s]
  | x :: y :: ys => x :: appLast (y :: ys) s

/-- The fragment filter of `_parse_body`: `x != b'' and x != b'\r\n'`. -/
def fragKeep (x : List Nat) : Bool := x != ([] : List Nat) && x != crlf

/-- The per-fragment processing of `_parse_body`: strip the final two bytes
(`x[:-2]`) and apply `_fix_last_part` with the end marker. -/
def processFragment (boundary x : List Nat) : List Nat :=
  fix_last_part (pySliceTo x (-2)) (endMarkerOf boundary)

/-- The processed fragments handed to `BodyPart` by `_parse_body`. -/
def processedFragments (content boundary : List Nat) : List (List Nat) :=
  ((pySplit (sepOf boundary) content).filter fragKeep).map
    (processFragment boundary)

/-- Left-to-right construction of the parts tuple; the first raised exception
aborts the whole comprehension, exactly as in Python. -/
def partsOf : List (List Nat) → List Char → Except DecoderError (List BodyPart)
  | [], _ => Except.ok []
  | x :: xs, encoding =>
    match BodyPart.init x encoding with
    | Except.error e => Except.error e
    | Except.ok p =>
      match partsOf xs encoding with
      | Except.error e => Except.error e
      | Except.ok ps => Except.ok (p :: ps)

/-- `MultipartDecoder._parse_body`, as a function of the content, the
boundary bytes and the encoding name. -/
def parse_body (content boundary : List Nat) (encoding : List Char) :
    Except DecoderError (List BodyPart) :=
  partsOf (processedFragments content boundary) encoding

/-- Modelled from the spec: `encode_with` lives in the encoder module, which
is not under `src/`; per the spec the boundary value is "encoded to bytes
using the configured charset".  An encoding is modelled as its name together
with its byte encoder. -/
structure Encoding where
  name : List Char
  encode : List Char → List Nat

/-- The default `utf-8` encoding, restricted to ASCII inputs (on code points
below 128 UTF-8 encodes each character to its own code point).  All concrete
inputs used below are ASCII. -/
def utf8OnAscii : Encoding := ⟨"utf-8".toList, fun s => s.map Char.toNat⟩

/-- The `;`-separated, whitespace-stripped pieces of the content type
(`ct_info` in `_find_boundary`). -/
def ctInfo (content_type : List Char) : List (List Char) :=
  (pySplit [';'] content_type).map pyStrip

/-- `ct_info[0]` (a `split` result is never empty). -/
def mimetypeOf (content_type : List Char) : List Char :=
  (ctInfo content_type).headD []

/-- `mimetype.split('/')[0]`. -/
def topLevelOf (content_type : List Char) : List Char :=
  (pySplit ['/'] (mimetypeOf content_type)).headD []

/-- The boundary-attribute test of `_find_boundary`:
`attr.lower() == 'boundary'` for `attr, value = _split_on_find(item, '=')`. -/
def isBoundaryItem (item : List Char) : Bool :=
  pyLower (split_on_find item ['=']).1 == "boundary".toList

/-- One iteration of the attribute loop of `_find_boundary`: a matching item
assigns `self.boundary` to the unquoted, encoded value. -/
def boundaryStep (E : Encoding) (acc : Option (List Nat)) (item : List Char) :
    Option (List Nat) :=
  if isBoundaryItem item then
    some (E.encode (stripChars (fun c => c == '"') (split_on_find item ['=']).2))
  else acc

/-- The attribute loop of `_find_boundary`: each matching item assigns
`self.boundary`, so the last match wins; `none` when no item matched. -/
def boundaryScan (E : Encoding) (items : List (List Char)) : Option (List Nat) :=
  items.foldl (boundaryStep E) none

/-- `MultipartDecoder._find_boundary`: reject a non-`multipart` top-level
type, then scan the remaining attributes for `boundary`. -/
def find_boundary (content_type : List Char) (E : Encoding) :
    Except DecoderError (Option (List Nat)) :=
  if topLevelOf content_type ≠ "multipart".toList then
    Except.error DecoderError.nonMultipartContentType
  else Except.ok (boundaryScan E ((ctInfo content_type).drop 1))

/-- The decoder object after a successful `__init__`. -/
structure MultipartDecoder where
  content : List Nat
  content_type : List Char
  encoding : List Char
  boundary : List Nat
  parts : List BodyPart

/-- `MultipartDecoder.__init__`: `_find_boundary` then `_parse_body`.  When
`_find_boundary` accepted the mimetype but never assigned `self.boundary`,
`_parse_body` raises `AttributeError` on reading it. -/
def MultipartDecoder.init (content : List Nat) (content_type : List Char)
    (E : Encoding) : Except DecoderError MultipartDecoder :=
  match find_boundary content_type E with
  | Except.error e => Except.error e
  | Except.ok none => Except.error DecoderError.attributeError
  | Except.ok (some b) =>
    match parse_body content b E.name with
    | Except.error e => Except.error e
    | Except.ok ps => Except.ok ⟨content, content_type, E.name, b, ps⟩

end DecoderModel

section PyLemmas

variable {α : Type} [DecidableEq α]

theorem pyStarts_iff (c b : List α) : pyStarts c b = true ↔ ∃ t, b ++ t = c := by
  induction b generalizing c with
  | nil =>
    constructor
    · intro _; exact ⟨c, rfl⟩
    · intro _; cases c <;> rfl
  | cons y ys ih =>
    cases c with
    | nil =>
      simp only [pyStarts, Bool.false_eq_true, false_iff]
      rintro ⟨t, ht⟩
      exact List.cons_ne_nil _ _ ht
    | cons x xs =>
      simp only [pyStarts]
      by_cases h : y = x
      · subst h
        rw [if_pos rfl, ih]
        constructor
        · rintro ⟨t, ht⟩; exact ⟨t, by rw [List.cons_append, ht]⟩
        · rintro ⟨t, ht⟩
          injection ht with h1 h2
          exact ⟨t, h2⟩
      · rw [if_neg h]
        simp only [Bool.false_eq_true, false_iff]
        rintro ⟨t, ht⟩
        injection ht with h1 h2
        exact h h1

theorem pyFind_ge_or (c b : List α) : pyFind c b = -1 ∨ 0 ≤ pyFind c b := by
  induction c with
  | nil =>
    by_cases h : pyStarts [] b = true
    · right; simp [pyFind, h]
    · left; simp [pyFind, h]
  | cons x t ih =>
    by_cases h : pyStarts (x :: t) b = true
    · right; simp [pyFind, h]
    · by_cases h1 : pyFind t b = -1
      · left; simp [pyFind, h, h1]
      · right
        have h0 : 0 ≤ pyFind t b := by rcases ih with h2 | h2 <;> omega
        simp only [pyFind, h, if_false, h1, if_neg h1, Bool.false_eq_true]
        omega

theorem pyFind_found (c b : List α) (h : 0 ≤ pyFind c b) :
    pyStarts (c.drop (pyFind c b).toNat) b = true := by
  induction c with
  | nil =>
    by_cases hs : pyStarts [] b = true
    · simp [pyFind, hs]
    · simp [pyFind, hs] at h
  | cons x t ih =>
    by_cases hs : pyStarts (x :: t) b = true
    · simp [pyFind, hs]
    · by_cases h1 : pyFind t b = -1
      · simp [pyFind, hs, h1] at h
      · have h0 : 0 ≤ pyFind t b := by
          rcases pyFind_ge_or t b with h2 | h2 <;> omega
        have hval : pyFind (x :: t) b = pyFind t b + 1 := by
          simp [pyFind, hs, h1]
        rw [hval]
        have htn : (pyFind t b + 1).toNat = (pyFind t b).toNat + 1 := by omega
        rw [htn, List.drop_succ_cons]
        exact ih h0

theorem pyFind_min (c b : List α) (h : 0 ≤ pyFind c b) :
    ∀ j, j < (pyFind c b).toNat → pyStarts (c.drop j) b = false := by
  induction c with
  | nil =>
    intro j hj
    by_cases hs : pyStarts [] b = true
    · simp [pyFind, hs] at hj
    · simp [pyFind, hs] at h
  | cons x t ih =>
    intro j hj
    by_cases hs : pyStarts (x :: t) b = true
    · simp [pyFind, hs] at hj
    · by_cases h1 : pyFind t b = -1
      · simp [pyFind, hs, h1] at h
      · have h0 : 0 ≤ pyFind t b := by
          rcases pyFind_ge_or t b with h2 | h2 <;> omega
        have hval : pyFind (x :: t) b = pyFind t b + 1 := by
          simp [pyFind, hs, h1]
        rw [hval, show (pyFind t b + 1).toNat = (pyFind t b).toNat + 1 by omega] at hj
        cases j with
        | zero =>
          simpa using (Bool.not_eq_true _).mp hs
        | succ j' =>
          rw [List.drop_succ_cons]
          exact ih h0 j' (by omega)

theorem pyFind_none (c b : List α) (h : pyFind c b = -1) :
    ∀ j, pyStarts (c.drop j) b = false := by
  induction c with
  | nil =>
    intro j
    by_cases hs : pyStarts [] b = true
    · simp [pyFind, hs] at h
    · simpa [List.drop_nil] using (Bool.not_eq_true _).mp hs
  | cons x t ih =>
    intro j
    by_cases hs : pyStarts (x :: t) b = true
    · simp [pyFind, hs] at h
    · by_cases h1 : pyFind t b = -1
      · cases j with
        | zero => simpa using (Bool.not_eq_true _).mp hs
        | succ j' =>
          rw [List.drop_succ_cons]
          exact ih h1 j'
      · exfalso
        have h0 : 0 ≤ pyFind t b := by
          rcases pyFind_ge_or t b with h2 | h2 <;> omega
        have hval : pyFind (x :: t) b = pyFind t b + 1 := by
          simp [pyFind, hs, h1]
        omega

theorem pyFind_eq (c b : List α) (j : Nat)
    (hj : pyStarts (c.drop j) b = true)
    (hmin : ∀ i, i < j → pyStarts (c.drop i) b = false) :
    pyFind c b = (j : Int) := by
  induction c generalizing j with
  | nil =>
    cases j with
    | zero => simpa [pyFind, List.drop_nil] using hj
    | succ j' =>
      exfalso
      have h0 := hmin 0 (by omega)
      rw [List.drop_nil] at h0
      rw [List.drop_nil] at hj
      rw [h0] at hj
      exact Bool.false_ne_true hj
  | cons x t ih =>
    cases j with
    | zero =>
      rw [List.drop_zero] at hj
      simp [pyFind, hj]
    | succ j' =>
      have hs : pyStarts (x :: t) b = false := by
        simpa using hmin 0 (by omega)
      have hrec : pyFind t b = (j' : Int) := by
        apply ih
        · simpa [List.drop_succ_cons] using hj
        · intro i hi
          simpa [List.drop_succ_cons] using hmin (i + 1) (by omega)
      simp [pyFind, hs, hrec]

theorem pyStarts_length {c b : List α} (h : pyStarts c b = true) :
    b.length ≤ c.length := by
  rw [pyStarts_iff] at h
  obtain ⟨t, ht⟩ := h
  subst ht
  simp

theorem pyFind_le_length (c b : List α) (h : 0 ≤ pyFind c b) :
    (pyFind c b).toNat + b.length ≤ c.length := by
  have := pyStarts_length (pyFind_found c b h)
  rw [List.length_drop] at this
  have hlt : (pyFind c b).toNat ≤ c.length := by
    by_contra hcontra
    push_neg at hcontra
    have hdrop : c.drop (pyFind c b).toNat = [] :=
      List.drop_eq_nil_of_le (by omega)
    by_cases hb : b = []
    · subst hb
      have : pyFind c ([] : List α) = 0 := by
        cases c <;> simp [pyFind, pyStarts]
      omega
    · have hf := pyFind_found c b h
      rw [hdrop, pyStarts_iff] at hf
      obtain ⟨t, ht⟩ := hf
      exact hb (List.append_eq_nil.mp ht).1
  omega

end PyLemmas

section SliceLemmas

variable {α : Type} [DecidableEq α]

theorem pyIdx_coe (n j : Nat) : pyIdx n (j : Int) = min j n := by
  simp [pyIdx]

omit [DecidableEq α] in
theorem pySliceTo_coe (c : List α) (j : Nat) : pySliceTo c (j : Int) = c.take j := by
  rw [pySliceTo, pyIdx_coe]
  rcases Nat.le_total j c.length with h | h
  · rw [Nat.min_eq_left h]
  · rw [Nat.min_eq_right h, List.take_length, List.take_of_length_le h]

omit [DecidableEq α] in
theorem pySliceFrom_coe (c : List α) (j : Nat) : pySliceFrom c (j : Int) = c.drop j := by
  rw [pySliceFrom, pyIdx_coe]
  rcases Nat.le_total j c.length with h | h
  · rw [Nat.min_eq_left h]
  · rw [Nat.min_eq_right h, List.drop_length, List.drop_eq_nil_of_le h]

omit [DecidableEq α] in
theorem pySliceTo_neg_two (x : List α) (a b : α) :
    pySliceTo (x ++ [a, b]) (-2) = x := by
  have h2 : pyIdx (x ++ [a, b]).length (-2) = x.length := by
    simp [pyIdx, List.length_append]
  rw [pySliceTo, h2, List.take_left]

theorem pyStarts_append (b t : List α) : pyStarts (b ++ t) b = true :=
  (pyStarts_iff _ _).mpr ⟨t, rfl⟩

theorem pyFind_of_starts (c b : List α) (h : pyStarts c b = true) :
    pyFind c b = 0 := by
  have := pyFind_eq c b 0 (by simpa using h) (by omega)
  simpa using this

theorem pyFind_append_self (b t : List α) : pyFind (b ++ t) b = 0 :=
  pyFind_of_starts _ _ (pyStarts_append b t)

theorem pyFind_drop_length_lt (c sep : List α) (hsep : sep ≠ [])
    (h : 0 ≤ pyFind c sep) :
    (pySliceFrom c (pyFind c sep + sep.length)).length < c.length := by
  have hle := pyFind_le_length c sep h
  have hsl : 1 ≤ sep.length := by
    cases sep with
    | nil => exact absurd rfl hsep
    | cons _ _ => simp
  have hco : pyFind c sep + (sep.length : Int) =
      (((pyFind c sep).toNat + sep.length : Nat) : Int) := by omega
  rw [hco, pySliceFrom_coe, List.length_drop]
  omega

theorem pySplitAux_fuel (sep : List α) :
    ∀ f1 f2 c, c.length < f1 → c.length < f2 →
      pySplitAux sep f1 c = pySplitAux sep f2 c := by
  intro f1
  induction f1 with
  | zero => intro f2 c h1 h2; omega
  | succ f ih =>
    intro f2 c h1 h2
    cases f2 with
    | zero => omega
    | succ f2' =>
      by_cases hc : sep ≠ [] ∧ 0 ≤ pyFind c sep
      · have hlt := pyFind_drop_length_lt c sep hc.1 hc.2
        simp only [pySplitAux, if_pos hc]
        rw [ih f2' _ (by omega) (by omega)]
      · simp only [pySplitAux, if_neg hc]

theorem pySplitAux_succ (sep : List α) (fuel : Nat) (c : List α) :
    pySplitAux sep (fuel + 1) c =
      if sep ≠ [] ∧ 0 ≤ pyFind c sep then
        pySliceTo c (pyFind c sep) ::
          pySplitAux sep fuel (pySliceFrom c (pyFind c sep + sep.length))
      else [c] := rfl

theorem pySplit_pos (sep c : List α) (hsep : sep ≠ []) (h : 0 ≤ pyFind c sep) :
    pySplit sep c =
      pySliceTo c (pyFind c sep) ::
        pySplit sep (pySliceFrom c (pyFind c sep + sep.length)) := by
  have hlt := pyFind_drop_length_lt c sep hsep h
  rw [pySplit, pySplitAux_succ, if_pos (And.intro hsep h)]
  congr 1
  rw [pySplit]
  exact pySplitAux_fuel sep c.length _ _ hlt (by omega)

theorem pySplit_neg (sep c : List α) (h : ¬(sep ≠ [] ∧ 0 ≤ pyFind c sep)) :
    pySplit sep c = [c] := by
  rw [pySplit, pySplitAux_succ, if_neg h]

theorem pySplit_ne_nil (sep c : List α) : pySplit sep c ≠ [] := by
  by_cases h : sep ≠ [] ∧ 0 ≤ pyFind c sep
  · rw [pySplit_pos sep c h.1 h.2]; simp
  · rw [pySplit_neg sep c h]; simp

end SliceLemmas

section ClaimEasy

/-- C8: equality of two `BodyPart`s holds exactly when their raw content
bytes are equal, whatever their headers or encodings are; equality of a
`BodyPart` with a raw byte value holds exactly when the raw content equals
that value. -/
theorem bodyPart_eq_content_only :
    (∀ p q : BodyPart, BodyPart.eq p q = true ↔ p.content = q.content) ∧
    (∀ (p : BodyPart) (b : List Nat), BodyPart.eqRaw p b = true ↔ p.content = b) := by
  constructor
  · intro p q
    simp [BodyPart.eq]
  · intro p b
    simp [BodyPart.eqRaw]

/-- C7 counterexample: for the payload `--b\r\n\r\nABZQ` the single retained
fragment is `\r\nABZQ`, whose final two bytes `ZQ` are not CR LF; the decoder
nevertheless strips those two bytes and succeeds with part content `AB`,
so it does quietly strip them and proceed. -/
theorem non_crlf_fragment_truncated_quietly :
    pySplit (sepOf [98]) (sepOf [98] ++ [13, 10, 65, 66, 90, 81]) =
      [[], [13, 10, 65, 66, 90, 81]] ∧
    ([90, 81] : List Nat) ≠ crlf ∧
    parse_body (sepOf [98] ++ [13, 10, 65, 66, 90, 81]) [98] [] =
      Except.ok [⟨[], [65, 66], []⟩] := by
  refine ⟨rfl, by decide, rfl⟩

/-- C7 amended: `_parse_body` never rejects a retained fragment that is not
CR LF terminated; it strips the final two bytes of every fragment
unconditionally, so a fragment ending in two arbitrary bytes is processed
exactly like the CR LF terminated one — non-CRLF input is silently
truncated. -/
theorem fragment_last_two_bytes_ignored (B x : List Nat) (u v : Nat) :
    processFragment B (x ++ [u, v]) = processFragment B (x ++ [13, 10]) := by
  unfold processFragment
  rw [pySliceTo_neg_two, pySliceTo_neg_two]

/-- C6: the boundary-collision failure mode exists.  A payload framing the
single part content `AB\r\n--b\r\n\r\nCD`, which contains the per-part
separator `--b\r\n`, is mis-split into two parts with contents `AB` and
`CD`, neither of which equals the framed content. -/
theorem boundary_collision_missplits :
    0 ≤ pyFind ([65, 66, 13, 10] ++ sepOf [98] ++ [13, 10, 67, 68]) (sepOf [98]) ∧
    parse_body
        (sepOf [98] ++ crlf ++ ([65, 66, 13, 10] ++ sepOf [98] ++ [13, 10, 67, 68]) ++
          crlf ++ ([45, 45, 98, 45, 45] ++ crlf)) [98] [] =
      Except.ok [⟨[], [65, 66], []⟩, ⟨[], [67, 68], []⟩] ∧
    ([65, 66] : List Nat) ≠ [65, 66, 13, 10] ++ sepOf [98] ++ [13, 10, 67, 68] ∧
    ([67, 68] : List Nat) ≠ [65, 66, 13, 10] ++ sepOf [98] ++ [13, 10, 67, 68] := by
  refine ⟨by decide, rfl, by decide, by decide⟩

/-- C1 counterexample: the payload `--b\r\nX\r\n\r\nY\r\n--b--` carries the
terminal closing marker `--b--` and decodes successfully, to one part with
content `Y\r\n--b`; the otherwise-identical payload with the terminal marker
removed decodes to one part with content `Y`.  The two parts tuples differ. -/
theorem terminal_marker_removal_changes_parts :
    parse_body ((sepOf [98] ++ [88, 13, 10, 13, 10, 89, 13, 10]) ++
        ([45, 45] ++ [98] ++ [45, 45])) [98] [] =
      Except.ok [⟨[], [89, 13, 10, 45, 45, 98], []⟩] ∧
    parse_body (sepOf [98] ++ [88, 13, 10, 13, 10, 89, 13, 10]) [98] [] =
      Except.ok [⟨[], [89], []⟩] ∧
    ([89, 13, 10, 45, 45, 98] : List Nat) ≠ [89] := by
  refine ⟨rfl, rfl, by decide⟩

end ClaimEasy

section ClaimStructural

theorem split_on_find_exact {α : Type} [DecidableEq α] (A S B' : List α)
    (h : pyFind (A ++ S ++ B') S = (A.length : Int)) :
    split_on_find (A ++ S ++ B') S = (A, B') := by
  have h1 : pySliceTo (A ++ S ++ B') (pyFind (A ++ S ++ B') S) = A := by
    rw [h, pySliceTo_coe, List.append_assoc, List.take_left]
  have h2 : pySliceFrom (A ++ S ++ B') (pyFind (A ++ S ++ B') S + S.length) = B' := by
    rw [h, show ((A.length : Int) + S.length) = ((A.length + S.length : Nat) : Int) from by
      push_cast; ring]
    rw [pySliceFrom_coe, List.append_assoc, ← List.drop_drop, List.drop_left,
      List.drop_left]
  rw [split_on_find, h1, h2]

/-- C10: inside a parsed header block, a line that does not contain `': '`
contributes no entry to the header map and causes no failure — the header
loop over the lines equals the loop over only the lines containing `': '`;
and a line of the shape `key ++ ': ' ++ value`, with that occurrence of
`': '` the first one, is split there into the entry `(key, value)`. -/
theorem header_line_without_colon_ignored :
    (∀ (d : List (List Nat × List Nat)) (lines : List (List Nat)),
      headersFold d lines =
        headersFold d (lines.filter (fun l => decide (0 ≤ pyFind l colonSp)))) ∧
    (∀ (d : List (List Nat × List Nat)) (k v : List Nat),
      pyFind (k ++ colonSp ++ v) colonSp = (k.length : Int) →
      headersFold d [k ++ colonSp ++ v] = dictInsert d k v) := by
  constructor
  · intro d lines
    induction lines generalizing d with
    | nil => rfl
    | cons l ls ih =>
      by_cases h : 0 ≤ pyFind l colonSp
      · rw [List.filter_cons_of_pos (by simpa using h)]
        simp only [headersFold, List.foldl_cons]
        exact ih (headerStep d l)
      · rw [List.filter_cons_of_neg (by simpa using h)]
        simp only [headersFold, List.foldl_cons]
        rw [show headerStep d l = d from by rw [headerStep, if_neg h]]
        exact ih d
  · intro d k v h
    have h0 : 0 ≤ pyFind (k ++ colonSp ++ v) colonSp := by
      rw [h]; exact Int.natCast_nonneg _
    simp only [headersFold, List.foldl_cons, List.foldl_nil, headerStep,
      if_pos h0, split_on_find_exact k colonSp v h]

/-- C10 witness: the single line `a: b` yields exactly the entry
`(a, b)`, and a concrete filter instance. -/
theorem header_line_without_colon_ignored_witness :
    headersFold [] [[97, 58, 32, 98]] = dictInsert [] [97] [98] :=
  header_line_without_colon_ignored.2 [] [97] [98] (by decide)

/-- C4: a fragment whose first CR LF CR LF occurrence sits after the prefix
`A` is split there: the headers come from the block `A` and the content is
the suffix after the separator; a fragment without CR LF CR LF that begins
with CR LF yields the content after that leading CR LF and an empty header
map. -/
theorem bodyPart_fragment_structure :
    (∀ (A B' : List Nat) (enc : List Char),
      pyFind (A ++ dcrlf ++ B') dcrlf = (A.length : Int) →
      BodyPart.init (A ++ dcrlf ++ B') enc =
        Except.ok ⟨headersOfBlock A, B', enc⟩) ∧
    (∀ (C : List Nat) (enc : List Char),
      ¬ 0 ≤ pyFind C dcrlf → crlf = pySliceTo C 2 →
      BodyPart.init C enc = Except.ok ⟨[], pySliceFrom C 2, enc⟩) := by
  constructor
  · intro A B' enc h
    have h0 : 0 ≤ pyFind (A ++ dcrlf ++ B') dcrlf := by
      rw [h]; exact Int.natCast_nonneg _
    simp only [BodyPart.init, if_pos h0, split_on_find_exact A dcrlf B' h]
  · intro C enc h1 h2
    simp only [BodyPart.init, if_neg h1, if_pos h2]

/-- C4 witness: the fragment `a\r\n\r\nb` splits into header block `a` and
content `b`; the fragment `\r\nc` yields content `c` with no headers. -/
theorem bodyPart_fragment_structure_witness :
    BodyPart.init [97, 13, 10, 13, 10, 98] [] =
      Except.ok ⟨headersOfBlock [97], [98], []⟩ ∧
    BodyPart.init [13, 10, 99] [] = Except.ok ⟨[], pySliceFrom [13, 10, 99] 2, []⟩ :=
  ⟨bodyPart_fragment_structure.1 [97] [98] [] (by decide),
   bodyPart_fragment_structure.2 [13, 10, 99] [] (by decide) (by decide)⟩

theorem bodyPart_init_error_eq (x : List Nat) (enc : List Char) (e : DecoderError)
    (h : BodyPart.init x enc = Except.error e) :
    e = DecoderError.improperBodyPartContent := by
  by_cases h1 : 0 ≤ pyFind x dcrlf
  · rw [BodyPart.init, if_pos h1] at h
    cases h
  · by_cases h2 : crlf = pySliceTo x 2
    · rw [BodyPart.init, if_neg h1, if_pos h2] at h
      cases h
    · rw [BodyPart.init, if_neg h1, if_neg h2] at h
      cases h
      rfl

theorem partsOf_error_of_mem (l : List (List Nat)) (enc : List Char) (x : List Nat)
    (hx : x ∈ l)
    (hxe : BodyPart.init x enc = Except.error DecoderError.improperBodyPartContent) :
    partsOf l enc = Except.error DecoderError.improperBodyPartContent := by
  induction l with
  | nil => cases hx
  | cons y ys ih =>
    rcases hy : BodyPart.init y enc with e | p
    · have he := bodyPart_init_error_eq y enc e hy
      subst he
      simp only [partsOf, hy]
    · rcases List.mem_cons.mp hx with rfl | hx2
      · rw [hy] at hxe
        cases hxe
      · simp only [partsOf, hy, ih hx2]

/-- C2: a processed part fragment that neither contains CR LF CR LF nor
begins with CR LF makes `BodyPart` raise `ImproperBodyPartContent`; when such
a fragment occurs in a payload, the decoder construction fails with exactly
that error, so the caller observes no parts tuple at all. -/
theorem improper_fragment_aborts_decoder :
    (∀ (x : List Nat) (enc : List Char),
      ¬ 0 ≤ pyFind x dcrlf → crlf ≠ pySliceTo x 2 →
      BodyPart.init x enc = Except.error DecoderError.improperBodyPartContent) ∧
    (∀ (content B : List Nat) (ct : List Char) (E : Encoding) (x : List Nat),
      find_boundary ct E = Except.ok (some B) →
      x ∈ processedFragments content B →
      ¬ 0 ≤ pyFind x dcrlf → crlf ≠ pySliceTo x 2 →
      MultipartDecoder.init content ct E =
        Except.error DecoderError.improperBodyPartContent) := by
  have base : ∀ (x : List Nat) (enc : List Char),
      ¬ 0 ≤ pyFind x dcrlf → crlf ≠ pySliceTo x 2 →
      BodyPart.init x enc = Except.error DecoderError.improperBodyPartContent := by
    intro x enc h1 h2
    rw [BodyPart.init, if_neg h1, if_neg h2]
  refine ⟨base, ?_⟩
  intro content B ct E x hfb hmem h1 h2
  have hpb : parse_body content B E.name =
      Except.error DecoderError.improperBodyPartContent :=
    partsOf_error_of_mem _ _ x hmem (base x E.name h1 h2)
  simp only [MultipartDecoder.init, hfb, hpb]

/-- C2 witness: the payload `--b\r\nABC` with content type
`multipart/mixed; boundary=b` has the single processed fragment `A`, which
neither contains CR LF CR LF nor starts with CR LF; decoding fails with
`ImproperBodyPartContent`. -/
theorem improper_fragment_aborts_decoder_witness :
    MultipartDecoder.init (sepOf [98] ++ [65, 66, 67])
        ("multipart/mixed; boundary=b".toList) utf8OnAscii =
      Except.error DecoderError.improperBodyPartContent :=
  improper_fragment_aborts_decoder.2 (sepOf [98] ++ [65, 66, 67]) [98]
    ("multipart/mixed; boundary=b".toList) utf8OnAscii [65]
    rfl (by decide) (by decide) (by decide)

/-- C3: a content type whose first `;`-separated token has a top-level type
(the text before `/`, after whitespace stripping) different from `multipart`
makes the decoder construction fail with `NonMultipartContentType`; in
particular `application/json` is rejected that way for every payload. -/
theorem non_multipart_content_type_rejected :
    (∀ (content : List Nat) (ct : List Char) (E : Encoding),
      topLevelOf ct ≠ "multipart".toList →
      MultipartDecoder.init content ct E =
        Except.error DecoderError.nonMultipartContentType) ∧
    (∀ (content : List Nat) (E : Encoding),
      MultipartDecoder.init content ("application/json".toList) E =
        Except.error DecoderError.nonMultipartContentType) := by
  have main : ∀ (content : List Nat) (ct : List Char) (E : Encoding),
      topLevelOf ct ≠ "multipart".toList →
      MultipartDecoder.init content ct E =
        Except.error DecoderError.nonMultipartContentType := by
    intro content ct E h
    have hf : find_boundary ct E = Except.error DecoderError.nonMultipartContentType := by
      rw [find_boundary, if_pos h]
    simp only [MultipartDecoder.init, hf]
  exact ⟨main, fun content E => main content _ E (by decide)⟩

/-- C3 witness: a concrete non-multipart decode. -/
theorem non_multipart_content_type_rejected_witness :
    MultipartDecoder.init [65] ("text/plain".toList) utf8OnAscii =
      Except.error DecoderError.nonMultipartContentType :=
  non_multipart_content_type_rejected.1 [65] ("text/plain".toList) utf8OnAscii
    (by decide)

theorem boundaryScan_skip (E : Encoding) (acc : Option (List Nat))
    (L : List (List Char)) (hL : ∀ it ∈ L, isBoundaryItem it = false) :
    L.foldl (boundaryStep E) acc = acc := by
  induction L generalizing acc with
  | nil => rfl
  | cons a as ih =>
    rw [List.foldl_cons, show boundaryStep E acc a = acc from by
      rw [boundaryStep, if_neg (by simp [hL a (List.mem_cons_self a as)])]]
    exact ih acc (fun it hit => hL it (List.mem_cons_of_mem a hit))

/-- C5: when the attributes after the first content-type token contain a
`key=value` item whose key case-folds to `boundary` (and no later item does),
`_find_boundary` accepts the multipart type and sets the boundary to the
item's value with surrounding double quotes stripped, encoded with the
configured charset. -/
theorem boundary_attribute_sets_boundary (ct : List Char) (E : Encoding)
    (L1 L2 : List (List Char)) (item : List Char)
    (hmt : topLevelOf ct = "multipart".toList)
    (hitems : (ctInfo ct).drop 1 = L1 ++ item :: L2)
    (hit : isBoundaryItem item = true)
    (hL2 : ∀ it ∈ L2, isBoundaryItem it = false) :
    find_boundary ct E =
      Except.ok (some (E.encode
        (stripChars (fun c => c == '"') (split_on_find item ['=']).2))) := by
  rw [find_boundary, if_neg (by simp [hmt])]
  rw [hitems, boundaryScan, List.foldl_append, List.foldl_cons]
  rw [show boundaryStep E (List.foldl (boundaryStep E) none L1) item =
      some (E.encode (stripChars (fun c => c == '"') (split_on_find item ['=']).2))
    from by rw [boundaryStep, if_pos hit]]
  rw [boundaryScan_skip E _ L2 hL2]

/-- C5 witness: `multipart/form-data; BOUNDARY="abc"` sets the boundary to
the bytes of `abc`. -/
theorem boundary_attribute_sets_boundary_witness :
    find_boundary ("multipart/form-data; BOUNDARY=\"abc\"".toList) utf8OnAscii =
      Except.ok (some (utf8OnAscii.encode (stripChars (fun c => c == '"')
        (split_on_find ("BOUNDARY=\"abc\"".toList) ['=']).2))) :=
  boundary_attribute_sets_boundary ("multipart/form-data; BOUNDARY=\"abc\"".toList)
    utf8OnAscii [] [] ("BOUNDARY=\"abc\"".toList) (by decide) (by decide)
    (by decide) (by decide)

end ClaimStructural

section ClaimNine

theorem sepOf_ne_nil (B : List Nat) : sepOf B ≠ [] := by
  simp [sepOf]

theorem pySplit_sep_append (B X : List Nat) :
    pySplit (sepOf B) (sepOf B ++ X) = [] :: pySplit (sepOf B) X := by
  have hf := pyFind_append_self (sepOf B) X
  rw [pySplit_pos _ _ (sepOf_ne_nil B) (by rw [hf]), hf]
  congr 1
  rw [zero_add, show ((sepOf B).length : Int) = (((sepOf B).length : Nat) : Int) from rfl,
    pySliceFrom_coe, List.drop_left]

theorem pyFind_crlf_sep (B X : List Nat) :
    pyFind (crlf ++ (sepOf B ++ X)) (sepOf B) = ((2 : Nat) : Int) := by
  apply pyFind_eq
  · rw [show crlf ++ (sepOf B ++ X) = 13 :: 10 :: (sepOf B ++ X) from rfl]
    rw [List.drop_succ_cons, List.drop_succ_cons, List.drop_zero]
    exact pyStarts_append _ _
  · intro i hi
    interval_cases i
    · rw [List.drop_zero,
        show crlf ++ (sepOf B ++ X) = 13 :: 10 :: (sepOf B ++ X) from rfl,
        show sepOf B = 45 :: 45 :: (B ++ [13, 10]) from rfl]
      simp [pyStarts]
    · rw [show crlf ++ (sepOf B ++ X) = 13 :: 10 :: (sepOf B ++ X) from rfl,
        List.drop_succ_cons, List.drop_zero,
        show sepOf B = 45 :: 45 :: (B ++ [13, 10]) from rfl]
      simp [pyStarts]

theorem pySplit_crlf_sep_append (B X : List Nat) :
    pySplit (sepOf B) (crlf ++ (sepOf B ++ X)) = crlf :: pySplit (sepOf B) X := by
  have hf := pyFind_crlf_sep B X
  rw [pySplit_pos _ _ (sepOf_ne_nil B) (by rw [hf]; exact Int.natCast_nonneg _), hf]
  congr 1
  rw [show (((2 : Nat) : Int) + ((sepOf B).length : Int)) =
      ((2 + (sepOf B).length : Nat) : Int) from by push_cast; ring]
  rw [pySliceFrom_coe,
    show crlf ++ (sepOf B ++ X) = (crlf ++ sepOf B) ++ X from by
      rw [List.append_assoc],
    show 2 + (sepOf B).length = (crlf ++ sepOf B).length from by
      simp [crlf]; omega,
    List.drop_left]

/-- C9: a fragment that is exactly CR LF is silently dropped just like an
empty fragment: framing an extra empty part (a separator line immediately
followed by CR LF and the next separator) leaves the decode result — parts
and errors alike — unchanged; concretely, `--b\r\n\r\n--b\r\n\r\nX\r\n`
decodes to the single part `X`, the framed empty part yielding no
`BodyPart` and no error. -/
theorem lone_crlf_fragment_dropped :
    (∀ (B T : List Nat) (enc : List Char),
      parse_body (sepOf B ++ (crlf ++ (sepOf B ++ T))) B enc =
        parse_body (sepOf B ++ T) B enc) ∧
    parse_body (sepOf [98] ++ (crlf ++ (sepOf [98] ++ [13, 10, 88, 13, 10]))) [98] [] =
      Except.ok [⟨[], [88], []⟩] := by
  constructor
  · intro B T enc
    rw [parse_body, parse_body, processedFragments, processedFragments,
      pySplit_sep_append, pySplit_crlf_sep_append, pySplit_sep_append]
    rfl
  · rfl

end ClaimNine

section ClaimOne

theorem take_app_of_le {α : Type} (l1 l2 : List α) (n : Nat) (h : n ≤ l1.length) :
    (l1 ++ l2).take n = l1.take n := by
  rw [List.take_append_eq_append_take, show n - l1.length = 0 from by omega,
    List.take_zero, List.append_nil]

theorem drop_app_of_le {α : Type} (l1 l2 : List α) (n : Nat) (h : n ≤ l1.length) :
    (l1 ++ l2).drop n = l1.drop n ++ l2 := by
  rw [List.drop_append_eq_append_drop, show n - l1.length = 0 from by omega,
    List.drop_zero]

theorem termLine_eq_cons (B : List Nat) :
    termLineOf B = 45 :: 45 :: (B ++ [45, 45, 13, 10]) := rfl

theorem sep_eq_cons (B : List Nat) :
    sepOf B = 45 :: 45 :: (B ++ [13, 10]) := rfl

theorem sepOf_length (B : List Nat) : (sepOf B).length = B.length + 4 := by
  simp only [sepOf, List.length_append, List.length_cons, List.length_nil]
  omega

theorem termLineOf_length (B : List Nat) : (termLineOf B).length = B.length + 6 := by
  simp only [termLineOf, List.length_append, List.length_cons, List.length_nil]
  omega

theorem not_thirteen_mem_front (B : List Nat) (hCR : 13 ∉ B) :
    (13 : Nat) ∉ ([45, 45] ++ B ++ [45, 45] : List Nat) := by
  intro h
  rcases List.mem_append.mp h with h1 | h2
  · rcases List.mem_append.mp h1 with h3 | h4
    · simp at h3
    · exact hCR h4
  · simp at h2

theorem starts_term_within (B : List Nat) (hCR : (13 : Nat) ∉ B)
    (hD : ([45, 45] : List Nat) ++ B ≠ B ++ [45, 45]) (r : List Nat) (j : Nat)
    (h : pyStarts ((r ++ termLineOf B).drop j) (sepOf B) = true) :
    pyStarts (r.drop j) (sepOf B) = true := by
  rw [pyStarts_iff] at h
  obtain ⟨u, hu⟩ := h
  rw [List.drop_append_eq_append_drop] at hu
  by_cases hj : j ≤ r.length
  · rw [show j - r.length = 0 from by omega, List.drop_zero] at hu
    by_cases hlen : (sepOf B).length ≤ (r.drop j).length
    · have htake : sepOf B = (r.drop j).take (sepOf B).length := by
        have hc := congrArg (List.take (sepOf B).length) hu
        rwa [take_app_of_le _ _ _ (le_refl _), List.take_length,
          take_app_of_le _ _ _ hlen] at hc
      have hsplitd := List.take_append_drop (sepOf B).length (r.drop j)
      rw [← htake] at hsplitd
      rw [pyStarts_iff]
      exact ⟨(r.drop j).drop (sepOf B).length, hsplitd⟩
    · exfalso
      push_neg at hlen
      have htk : (sepOf B).take (r.drop j).length = r.drop j := by
        have hc := congrArg (List.take (r.drop j).length) hu
        rwa [take_app_of_le _ _ _ (by omega), List.take_left] at hc
      have hdr : (sepOf B).drop (r.drop j).length ++ u = termLineOf B := by
        have hc := congrArg (List.drop (r.drop j).length) hu
        rwa [drop_app_of_le _ _ _ (by omega), List.drop_left] at hc
      have hsl := sepOf_length B
      by_cases hm2 : (r.drop j).length ≤ B.length + 2
      · have hsd : (sepOf B).drop (r.drop j).length =
            (([45, 45] ++ B).drop (r.drop j).length) ++ [13, 10] := by
          rw [show sepOf B = ([45, 45] ++ B) ++ [13, 10] from by
            rw [sepOf, List.append_assoc]]
          exact drop_app_of_le _ _ _ (by
            simp only [List.length_append, List.length_cons, List.length_nil]
            omega)
        rw [hsd] at hdr
        set X := ([45, 45] ++ B).drop (r.drop j).length with hX
        have hXlen : X.length = B.length + 2 - (r.drop j).length := by
          rw [hX, List.length_drop]
          simp only [List.length_append, List.length_cons, List.length_nil]
          omega
        have h13 : (termLineOf B).take (X.length + 1) = X ++ [13] := by
          rw [← hdr, List.append_assoc, List.take_append_eq_append_take,
            List.take_of_length_le (show X.length ≤ X.length + 1 from by omega),
            show X.length + 1 - X.length = 1 from by omega]
          rfl
        have hfront : (termLineOf B).take (X.length + 1) =
            ([45, 45] ++ B ++ [45, 45]).take (X.length + 1) := by
          rw [show termLineOf B = ([45, 45] ++ B ++ [45, 45]) ++ [13, 10] from by
            simp [termLineOf]]
          exact take_app_of_le _ _ _ (by
            simp only [List.length_append, List.length_cons, List.length_nil]
            omega)
        have hmem : (13 : Nat) ∈ ([45, 45] ++ B ++ [45, 45] : List Nat) := by
          have hmm : (13 : Nat) ∈ (termLineOf B).take (X.length + 1) := by
            rw [h13]
            exact List.mem_append_right _ (by simp)
          rw [hfront] at hmm
          exact List.take_subset _ _ hmm
        exact not_thirteen_mem_front B hCR hmem
      · have hm3 : (r.drop j).length = B.length + 3 := by omega
        have hsd : (sepOf B).drop (r.drop j).length = [10] := by
          rw [hm3, show sepOf B = ([45, 45] ++ B) ++ [13, 10] from by
            rw [sepOf, List.append_assoc]]
          have hfl : ([45, 45] ++ B : List Nat).length = B.length + 2 := by
            simp only [List.length_append, List.length_cons, List.length_nil]
            omega
          rw [List.drop_append_eq_append_drop, hfl,
            List.drop_eq_nil_of_le (by rw [hfl]; omega), List.nil_append,
            show B.length + 3 - (B.length + 2) = 1 from by omega]
          rfl
        rw [hsd, termLine_eq_cons] at hdr
        simp at hdr
  · push_neg at hj
    rw [List.drop_eq_nil_of_le (by omega), List.nil_append] at hu
    exfalso
    have hsl := sepOf_length B
    have htl := termLineOf_length B
    have hlen := congrArg List.length hu
    rw [List.length_append, List.length_drop] at hlen
    have hk12 : j - r.length = 1 ∨ j - r.length = 2 := by omega
    rcases hk12 with hk | hk
    · rw [hk, show (termLineOf B).drop 1 = 45 :: (B ++ [45, 45, 13, 10]) from rfl,
        sep_eq_cons] at hu
      simp only [List.cons_append] at hu
      injection hu with h1 h2
      have hL : (45 :: ((B ++ [13, 10]) ++ u)).take (B.length + 2) =
          45 :: (B ++ [13]) := by
        rw [List.take_succ_cons, List.append_assoc, List.take_append_eq_append_take,
          List.take_of_length_le (show B.length ≤ B.length + 1 from by omega),
          show B.length + 1 - B.length = 1 from by omega]
        rfl
      have hR : (B ++ [45, 45, 13, 10]).take (B.length + 2) = B ++ [45, 45] := by
        rw [List.take_append_eq_append_take,
          List.take_of_length_le (show B.length ≤ B.length + 2 from by omega),
          show B.length + 2 - B.length = 2 from by omega]
        rfl
      have hu2 : 45 :: (B ++ [13]) = B ++ [45, 45] := by
        rw [← hL, ← hR, h2]
      have h13 : (13 : Nat) ∈ B ++ [45, 45] := by
        rw [← hu2]
        exact List.mem_cons_of_mem _ (List.mem_append_right _ (by simp))
      rcases List.mem_append.mp h13 with hmm | hmm
      · exact hCR hmm
      · simp at hmm
    · rw [hk, show (termLineOf B).drop 2 = B ++ [45, 45, 13, 10] from rfl] at hu
      have hu0 : u = [] := by
        have hc := congrArg List.length hu
        simp only [List.length_append, List.length_cons, List.length_nil] at hc
        exact List.length_eq_zero.mp (by omega)
      rw [hu0, List.append_nil] at hu
      apply hD
      have h1 : ([45, 45] ++ B) ++ [13, 10] = sepOf B := by
        rw [sepOf, List.append_assoc]
      have h2 : (B ++ [45, 45]) ++ [13, 10] = B ++ [45, 45, 13, 10] := by
        rw [List.append_assoc]
        rfl
      have heq : ([45, 45] ++ B) ++ [13, 10] = (B ++ [45, 45]) ++ [13, 10] := by
        rw [h1, h2, hu]
      exact (List.append_left_inj _).mp heq

theorem pyFind_append_term (B : List Nat) (hCR : (13 : Nat) ∉ B)
    (hD : ([45, 45] : List Nat) ++ B ≠ B ++ [45, 45]) (r : List Nat) :
    pyFind (r ++ termLineOf B) (sepOf B) = pyFind r (sepOf B) := by
  rcases pyFind_ge_or r (sepOf B) with hneg | hpos
  · rw [hneg]
    rcases pyFind_ge_or (r ++ termLineOf B) (sepOf B) with hL | hL
    · exact hL
    · exfalso
      have hst := pyFind_found _ _ hL
      have hin := starts_term_within B hCR hD r _ hst
      have hnone := pyFind_none r (sepOf B) hneg
        (pyFind (r ++ termLineOf B) (sepOf B)).toNat
      rw [hin] at hnone
      exact Bool.false_ne_true hnone.symm
  · have hfound := pyFind_found r (sepOf B) hpos
    have hqr : (pyFind r (sepOf B)).toNat + (sepOf B).length ≤ r.length :=
      pyFind_le_length r (sepOf B) hpos
    have hstar : pyStarts ((r ++ termLineOf B).drop (pyFind r (sepOf B)).toNat)
        (sepOf B) = true := by
      rw [List.drop_append_eq_append_drop,
        show (pyFind r (sepOf B)).toNat - r.length = 0 from by omega,
        List.drop_zero]
      rw [pyStarts_iff] at hfound ⊢
      obtain ⟨t, ht⟩ := hfound
      exact ⟨t ++ termLineOf B, by rw [← List.append_assoc, ht]⟩
    have hmin2 : ∀ i, i < (pyFind r (sepOf B)).toNat →
        pyStarts ((r ++ termLineOf B).drop i) (sepOf B) = false := by
      intro i hi
      cases hcon : pyStarts ((r ++ termLineOf B).drop i) (sepOf B) with
      | false => rfl
      | true =>
        exfalso
        have hin := starts_term_within B hCR hD r i hcon
        rw [pyFind_min r (sepOf B) hpos i hi] at hin
        exact Bool.false_ne_true hin
    have hfin := pyFind_eq (r ++ termLineOf B) (sepOf B)
      (pyFind r (sepOf B)).toNat hstar hmin2
    rw [hfin]
    omega

theorem appLast_cons_of_ne_nil {α : Type} (x : List α) (l : List (List α))
    (s : List α) (h : l ≠ []) : appLast (x :: l) s = x :: appLast l s := by
  cases l with
  | nil => exact absurd rfl h
  | cons y ys => rfl

theorem appLast_append_singleton {α : Type} (front : List (List α)) (z s : List α) :
    appLast (front ++ [z]) s = front ++ [z ++ s] := by
  induction front with
  | nil => rfl
  | cons a as ih =>
    rw [List.cons_append, appLast_cons_of_ne_nil a (as ++ [z]) s
      (by simp), ih, List.cons_append]

theorem pySplit_append_term (B : List Nat) (hCR : (13 : Nat) ∉ B)
    (hD : ([45, 45] : List Nat) ++ B ≠ B ++ [45, 45]) :
    ∀ (n : Nat) (Q : List Nat), Q.length ≤ n →
      pySplit (sepOf B) (Q ++ termLineOf B) =
        appLast (pySplit (sepOf B) Q) (termLineOf B) := by
  intro n
  induction n with
  | zero =>
    intro Q hQ
    have hQ0 : Q = [] := List.length_eq_zero.mp (by omega)
    subst hQ0
    have hneg : pyFind ([] : List Nat) (sepOf B) = -1 := by
      rw [show pyFind ([] : List Nat) (sepOf B) =
          (if pyStarts [] (sepOf B) then 0 else -1) from rfl]
      rw [sep_eq_cons]
      rfl
    have hnegT : pyFind (termLineOf B) (sepOf B) = -1 := by
      have h2 := pyFind_append_term B hCR hD []
      rw [List.nil_append] at h2
      rw [h2]
      exact hneg
    simp only [List.nil_append]
    rw [pySplit_neg _ _ (by push_neg; intro _; rw [hnegT]; omega),
      pySplit_neg _ _ (by push_neg; intro _; rw [hneg]; omega)]
    rfl
  | succ n ih =>
    intro Q hQ
    by_cases hc : 0 ≤ pyFind Q (sepOf B)
    · have hfapp := pyFind_append_term B hCR hD Q
      have hlt := pyFind_drop_length_lt Q (sepOf B) (sepOf_ne_nil B) hc
      have hqr := pyFind_le_length Q (sepOf B) hc
      rw [pySplit_pos _ _ (sepOf_ne_nil B) (by rw [hfapp]; exact hc),
        pySplit_pos _ _ (sepOf_ne_nil B) hc, hfapp]
      rw [appLast_cons_of_ne_nil _ _ _ (pySplit_ne_nil _ _)]
      have hcast : pyFind Q (sepOf B) + ((sepOf B).length : Int) =
          (((pyFind Q (sepOf B)).toNat + (sepOf B).length : Nat) : Int) := by
        omega
      congr 1
      · rw [show pyFind Q (sepOf B) = ((pyFind Q (sepOf B)).toNat : Int) from by omega,
          pySliceTo_coe, pySliceTo_coe, take_app_of_le _ _ _ (by omega)]
      · rw [hcast, pySliceFrom_coe, pySliceFrom_coe,
          List.drop_append_eq_append_drop,
          show (pyFind Q (sepOf B)).toNat + (sepOf B).length - Q.length = 0 from by
            omega,
          List.drop_zero]
        rw [ih _ (by
          have := List.length_drop ((pyFind Q (sepOf B)).toNat + (sepOf B).length) Q
          have hs1 : 1 ≤ (sepOf B).length := by rw [sepOf_length]; omega
          omega)]
    · have hneg : pyFind Q (sepOf B) = -1 := by
        rcases pyFind_ge_or Q (sepOf B) with h | h
        · exact h
        · exact absurd h hc
      rw [pySplit_neg _ _ (by
          push_neg
          intro _
          rw [pyFind_append_term B hCR hD Q, hneg]
          omega),
        pySplit_neg _ _ (by push_neg; intro _; omega)]
      rfl

theorem fragKeep_true_iff (x : List Nat) :
    fragKeep x = true ↔ x ≠ [] ∧ x ≠ crlf := by
  simp [fragKeep]

theorem pyFind_none_of_first_at_length (lq m : List Nat)
    (hm : m ≠ [])
    (hfind : pyFind (lq ++ m) m = (lq.length : Int)) :
    pyFind lq m = -1 := by
  rcases pyFind_ge_or lq m with h | h
  · exact h
  · exfalso
    have hf := pyFind_found lq m h
    have hle := pyFind_le_length lq m h
    have hm1 : 1 ≤ m.length := by
      cases m with
      | nil => exact absurd rfl hm
      | cons _ _ => simp
    have hstar : pyStarts ((lq ++ m).drop (pyFind lq m).toNat) m = true := by
      rw [List.drop_append_eq_append_drop,
        show (pyFind lq m).toNat - lq.length = 0 from by omega, List.drop_zero]
      rw [pyStarts_iff] at hf ⊢
      obtain ⟨t, ht⟩ := hf
      exact ⟨t ++ m, by rw [← List.append_assoc, ht]⟩
    have hmin := pyFind_min (lq ++ m) m (by rw [hfind]; exact Int.natCast_nonneg _)
      (pyFind lq m).toNat (by rw [hfind]; omega)
    rw [hstar] at hmin
    exact Bool.false_ne_true hmin.symm

/-- C1 amended: appending the full CR LF terminated terminal line
`--boundary--\r\n` to a payload leaves the decode result unchanged, provided
the payload is honestly framed: the boundary contains no CR byte and is not
self-overlapping (`--` ++ boundary differs from boundary ++ `--`), the last
split fragment ends with CR LF and is not a lone CR LF, and the end marker
`\r\n--boundary--` first occurs in that fragment extended by the marker at
its very end. -/
theorem terminal_marker_line_tolerated (B Q lq : List Nat)
    (front : List (List Nat)) (enc : List Char)
    (hCR : (13 : Nat) ∉ B)
    (hD : ([45, 45] : List Nat) ++ B ≠ B ++ [45, 45])
    (hsplit : pySplit (sepOf B) Q = front ++ [lq ++ crlf])
    (hlq : lq ≠ [])
    (hfind : pyFind (lq ++ endMarkerOf B) (endMarkerOf B) = (lq.length : Int)) :
    parse_body (Q ++ termLineOf B) B enc = parse_body Q B enc := by
  have happ := pySplit_append_term B hCR hD Q.length Q (le_refl _)
  rw [parse_body, parse_body, processedFragments, processedFragments, happ,
    hsplit, appLast_append_singleton, List.filter_append, List.filter_append]
  have hk2 : fragKeep (lq ++ crlf) = true := by
    rw [fragKeep_true_iff]
    constructor
    · simp [crlf]
    · intro hcon
      have := congrArg List.length hcon
      simp only [List.length_append, crlf, List.length_cons, List.length_nil] at this
      have : lq.length = 0 := by omega
      exact hlq (List.length_eq_zero.mp this)
  have hk1 : fragKeep ((lq ++ crlf) ++ termLineOf B) = true := by
    rw [fragKeep_true_iff]
    constructor
    · simp [crlf]
    · intro hcon
      have hlc := congrArg List.length hcon
      rw [List.length_append, List.length_append, termLineOf_length] at hlc
      simp only [crlf, List.length_cons, List.length_nil] at hlc
      omega
  rw [show List.filter fragKeep [(lq ++ crlf) ++ termLineOf B] =
      [(lq ++ crlf) ++ termLineOf B] from by rw [List.filter_cons_of_pos hk1]; rfl,
    show List.filter fragKeep [lq ++ crlf] = [lq ++ crlf] from by
      rw [List.filter_cons_of_pos hk2]; rfl]
  rw [List.map_append, List.map_append]
  have hproc : processFragment B ((lq ++ crlf) ++ termLineOf B) =
      processFragment B (lq ++ crlf) := by
    have hshape1 : (lq ++ crlf) ++ termLineOf B =
        (lq ++ endMarkerOf B) ++ [13, 10] := by
      rw [show termLineOf B = ([45, 45] ++ B ++ [45, 45]) ++ [13, 10] from by
        simp [termLineOf], endMarkerOf]
      simp [crlf]
    have hshape2 : lq ++ crlf = lq ++ [13, 10] := rfl
    rw [processFragment, processFragment, hshape1, hshape2,
      pySliceTo_neg_two, pySliceTo_neg_two]
    have hfix1 : fix_last_part (lq ++ endMarkerOf B) (endMarkerOf B) = lq := by
      rw [fix_last_part, if_pos (by rw [hfind]; exact Int.natCast_nonneg _), hfind,
        pySliceTo_coe, List.take_left]
    have hfix2 : fix_last_part lq (endMarkerOf B) = lq := by
      have hnone := pyFind_none_of_first_at_length lq (endMarkerOf B)
        (by simp [endMarkerOf]) hfind
      rw [fix_last_part, if_neg (by rw [hnone]; omega)]
    rw [hfix1, hfix2]
  simp only [List.map_cons, List.map_nil]
  rw [hproc]

/-- C1 amended witness: for boundary `b` and the marker-free payload
`--b\r\nX\r\n\r\nY\r\n`, appending the terminal line `--b--\r\n` decodes
to the same parts. -/
theorem terminal_marker_line_tolerated_witness :
    parse_body ((sepOf [98] ++ [88, 13, 10, 13, 10, 89, 13, 10]) ++ termLineOf [98])
        [98] [] =
      parse_body (sepOf [98] ++ [88, 13, 10, 13, 10, 89, 13, 10]) [98] [] :=
  terminal_marker_line_tolerated [98]
    (sepOf [98] ++ [88, 13, 10, 13, 10, 89, 13, 10]) [88, 13, 10, 13, 10, 89]
    [[]] [] (by decide) (by decide) (by decide) (by decide) (by decide)

end ClaimOne
